import Mathlib

/-!
Shallow embedding of the climlib `wrangle` module (wrangle.py).

Modelling conventions:
* Python strings are Lean `String`s; character-level processing (split,
  replace, find) is done on `String.toList` with executable definitions,
  so that concrete runs evaluate by `decide`.
* Python's dynamically typed metadata values (ints and bools) are the sum
  type `PyVal`; Python's `==` (where `True == 1`) is `pyEq`, and the
  `type(v) == int` test is `PyVal.isInt` (in Python `type(True) == int`
  is `False`).
* Fallible Python code (int parsing, positional indexing that can raise
  `IndexError` / `ValueError`) returns `Option`; `none` models a raised
  exception.
* File-system and file-content access (`cdms2.open`, `glob.glob`) are
  external collaborators; they are passed in as explicit oracle functions
  (`fmeta`, `glob`).  The pure logic that the source applies to the data
  those collaborators return is embedded directly.
-/

set_option maxRecDepth 4000

/-- Python metadata values occurring in the keyMap dictionaries built by
`trimModelList`: ints (ver, cdate, tpoints) and bools (publish). -/
inductive PyVal where
  | vInt (n : Int)
  | vBool (b : Bool)
deriving DecidableEq, Inhabited

/-- Python type test at wrangle.py line 57: `type(v) == int`.
In Python `type(True) == int` is `False` (bool is a distinct type). -/
def PyVal.isInt : PyVal → Bool
  | .vInt _ => true
  | .vBool _ => false

/-- Coercion to an integer as numpy applies when computing `np.max` over a
list that contains bools (`True` counts as 1, `False` as 0). -/
def PyVal.toInt : PyVal → Int
  | .vInt n => n
  | .vBool b => if b then 1 else 0

/-- Python equality on int-or-bool values: `True == 1` and `False == 0`. -/
def pyEq : PyVal → PyVal → Bool
  | .vInt n, .vInt m => n == m
  | .vBool a, .vBool b => a == b
  | .vInt n, .vBool b => n == (if b then 1 else 0)
  | .vBool b, .vInt n => (if b then 1 else 0) == n

/-- Computes `np.max` over a nonempty list of integers (0 on `[]`, never reached:
every call site guards the list to be nonempty). -/
def listMax : List Int → Int
  | [] => 0
  | a :: rest => rest.foldl max a

/-- Python `str.split(sep)` for a one-character separator, on the
character list of the string (keeps empty fields, like Python). -/
def splitChar (c : Char) : List Char → List (List Char)
  | [] => [[]]
  | a :: rest =>
    match splitChar c rest with
    | [] => [[]]
    | g :: gs => if a = c then [] :: g :: gs else (a :: g) :: gs

/-- Python `s.find(pat)`: index of the first occurrence of the substring
`pat` in `s`, or -1 when `pat` does not occur. -/
def pyFind (s pat : List Char) : Int :=
  match (List.range (s.length + 1)).find? (fun i => (s.drop i).take pat.length == pat) with
  | some i => (i : Int)
  | none => -1

/-- Substring occurrence test (`pat in s` in Python): used to state the
spec's reading of the publication flag. -/
def occursIn (pat s : List Char) : Bool :=
  (List.range (s.length + 1)).any (fun i => (s.drop i).take pat.length == pat)

/-- Value of a nonempty all-digit character list, `none` otherwise. -/
def digitsVal (s : List Char) : Option Nat :=
  if s = [] then none
  else if s.all Char.isDigit then
    some (s.foldl (fun acc c => acc * 10 + (c.toNat - 48)) 0)
  else none

/-- Python `int(s)` on a string of an optional sign followed by digits;
`none` models the `ValueError` raised on anything unparseable. -/
def pyInt : List Char → Option Int
  | '-' :: rest => (digitsVal rest).map (fun n => -(n : Int))
  | '+' :: rest => (digitsVal rest).map (fun n => (n : Int))
  | s => (digitsVal s).map (fun n => (n : Int))

/-- Lexicographic `<=` on character lists by code point, the order Python
uses to sort lists of strings (`models.sort()`, `rips.sort()`). -/
def lexLe : List Char → List Char → Bool
  | [], _ => true
  | _ :: _, [] => false
  | a :: as, b :: bs =>
    if a.toNat < b.toNat then true
    else if b.toNat < a.toNat then false
    else lexLe as bs

/-- wrangle.py lines 69-85, `versionWeight(V)`: 'latest' maps to 0;
otherwise all 'v' characters are removed (`V.replace('v', '')`), the rest
is parsed as an int (`none` models the `ValueError`), and values below 10
are rescaled by 100000000. -/
def versionWeight (V : List Char) : Option Int :=
  if V = "latest".toList then some 0
  else (pyInt (V.filter (fun c => c ≠ 'v'))).map
    (fun n => if n < 10 then n * 100000000 else n)

/-- The attributes of an opened cdms2 file handle that `getFileMeta`
reads: the optional `creation_date` attribute, the `directory` string,
and the length of the time axis when one exists. -/
structure FileHandle where
  creation_date : Option (List Char)
  directory : List Char
  timeLen : Option Nat
deriving DecidableEq

/-- wrangle.py lines 106-109: parse a creation-date string to an integer.
An empty string models the `IndexError` of `cdate[0]`; alphabetic-leading
dates keep only the trailing year token plus '0101'; ISO dates keep the
part before 'T' with '-' removed. -/
def parseCdate (cd : List Char) : Option Int :=
  match cd with
  | [] => none
  | c :: _ =>
    if c.isAlpha then
      pyInt ((splitChar ' ' cd).getLastD [] ++ "0101".toList)
    else
      pyInt (((splitChar 'T' cd).headD []).filter (fun ch => ch ≠ '-'))

/-- wrangle.py lines 88-121, `getFileMeta(fn)`, on the attributes of the
opened file: returns (cdate, publish, tpoints).  The publish flag is
computed exactly as in line 111: `bool(fh.directory.find('publish'))`,
i.e. true iff `find` returns a nonzero value (note `find` returns -1,
which is truthy, when the marker is absent). -/
def getFileMeta (fh : FileHandle) : Option (Int × Bool × Int) :=
  let cd := fh.creation_date.getD "1989-03-06T17:00:00Z".toList
  match parseCdate cd with
  | none => none
  | some cdate =>
    let publish : Bool := decide (pyFind fh.directory "publish".toList ≠ 0)
    let tpoints : Int := (fh.timeLen.getD 0 : Nat)
    some (cdate, publish, tpoints)

/-- The fixed set of filter criteria used by `trimModelList` (the string
keys 'cdate', 'ver', 'tpoints', 'publish' of the keyMap entries). -/
inductive Crit where
  | cdate
  | ver
  | tpoints
  | publish
deriving DecidableEq

/-- One keyMap entry as built by wrangle.py lines 161-162 (the 'model'
and 'rip' string fields plus the four criterion fields). -/
structure XmlMeta where
  model : List Char
  rip : List Char
  ver : Int
  cdate : Int
  publish : Bool
  tpoints : Int
deriving DecidableEq, Inhabited

/-- Dictionary lookup `keyMap[fn][crit]` for a typed keyMap entry. -/
def critVal (m : XmlMeta) : Crit → PyVal
  | .cdate => .vInt m.cdate
  | .ver => .vInt m.ver
  | .tpoints => .vInt m.tpoints
  | .publish => .vBool m.publish

/-- View of a typed keyMap (as `trimModelList` builds it) as the raw
dictionary-of-dictionaries that `filterXmls` accesses. -/
def metaKeyMap (K : String → XmlMeta) : String → Crit → PyVal :=
  fun fn c => critVal (K fn) c

/-- wrangle.py lines 56-60, determine the optimal value: `v` is the value
of the last file iterated (the Python loop variable after the value loop,
so `values.getLastD` — the default is never reached, every caller passes a
nonempty list); if its type is int the optimal value is `np.max(values)`,
otherwise it is the fixed boolean `True`. -/
def vmaxOf (values : List PyVal) : PyVal :=
  if (values.getLastD (PyVal.vBool true)).isInt then
    PyVal.vInt (listMax (values.map PyVal.toInt))
  else PyVal.vBool true

/-- wrangle.py lines 24-66, `filterXmls(files, keyMap, crit)`.
Lists of fewer than two files are returned unchanged.  Otherwise the
criterion values of all files are collected (`values`), the optimal value
is determined by `vmaxOf`, and the output keeps the files whose value
`==` the optimal one, in input order. -/
def filterXmls (files : List String) (keyMap : String → Crit → PyVal) (crit : Crit) :
    List String :=
  if files.length < 2 then files
  else files.filter (fun fn =>
    pyEq (keyMap fn crit) (vmaxOf (files.map (fun g => keyMap g crit))))

/-- wrangle.py lines 179-180: the cascade, applying `filterXmls` once per
criterion, feeding each step's output into the next step. -/
def applyCriteria (keyMap : String → Crit → PyVal) (criteria : List Crit)
    (files : List String) : List String :=
  criteria.foldl (fun fs c => filterXmls fs keyMap c) files

/-- Last '/'-separated path component of a filename
(`fn.split('/')[-1]`). -/
def lastPathComp (fn : String) : List Char :=
  (splitChar '/' fn.toList).getLastD []

/-- Dot-separated segments of the last path component
(`fn.split('/')[-1].split('.')`). -/
def dotSegs (fn : String) : List (List Char) :=
  splitChar '.' (lastPathComp fn)

/-- The (model, realization) identity tokens of an identifier: the
segments at positions 4 and 5 of the dot-split filename (wrangle.py
lines 153-154); `[]` stands in for a missing segment. -/
def groupKey (fn : String) : List Char × List Char :=
  ((dotSegs fn)[4]?.getD [], (dotSegs fn)[5]?.getD [])

/-- wrangle.py lines 151-162: build the keyMap entry of one file.  The
model and rip tokens are segments 4 and 5, the version token is segment
10 (missing segments model the `IndexError`), the version weight comes
from `versionWeight`, and (cdate, publish, tpoints) come from the
metadata-extraction collaborator `fmeta` (`getFileMeta`). -/
def buildMeta (fmeta : String → Int × Bool × Int) (fn : String) : Option XmlMeta :=
  match (dotSegs fn)[4]?, (dotSegs fn)[5]?, (dotSegs fn)[10]? with
  | some model, some rip, some verTok =>
    match versionWeight verTok with
    | some ver =>
      some { model := model, rip := rip, ver := ver,
             cdate := (fmeta fn).1, publish := (fmeta fn).2.1,
             tpoints := (fmeta fn).2.2 }
    | none => none
  | _, _, _ => none

/-- Total view of the keyMap (defaulting on files whose record failed to
build; `trimModelList` only proceeds when every record built). -/
def keyMapOf (fmeta : String → Int × Bool × Int) (fn : String) : XmlMeta :=
  (buildMeta fmeta fn).getD default

/-- First-occurrence deduplication, the key order of a Python dict that
is assigned `keyMap[fn] = ...` once per `fn` in `files`. -/
def pyDedup (l : List String) : List String :=
  l.foldl (fun acc x => if x ∈ acc then acc else acc ++ [x]) []

/-- wrangle.py lines 158, 165-166: the sorted list of distinct model
tokens (`models = list(set(models)); models.sort()`). -/
def modelsOf (files : List String) (fmeta : String → Int × Bool × Int) :
    List (List Char) :=
  ((files.map (fun fn => (keyMapOf fmeta fn).model)).dedup).insertionSort
    (fun a b => lexLe a b = true)

/-- wrangle.py lines 159, 164, 167: the sorted list of distinct rip
tokens. -/
def ripsOf (files : List String) (fmeta : String → Int × Bool × Int) :
    List (List Char) :=
  ((files.map (fun fn => (keyMapOf fmeta fn).rip)).dedup).insertionSort
    (fun a b => lexLe a b = true)

/-- wrangle.py lines 174-176: the group of one (model, rip) pair, drawn
from `keyMap.keys()` in insertion order. -/
def groupFiles (files : List String) (fmeta : String → Int × Bool × Int)
    (m r : List Char) : List String :=
  (pyDedup files).filter
    (fun fn => decide ((keyMapOf fmeta fn).model = m) &&
               decide ((keyMapOf fmeta fn).rip = r))

/-- wrangle.py lines 177-180: the survivors of one group after the full
criteria cascade. -/
def survivorsOf (files : List String) (fmeta : String → Int × Bool × Int)
    (criteria : List Crit) (m r : List Char) : List String :=
  applyCriteria (metaKeyMap (keyMapOf fmeta)) criteria (groupFiles files fmeta m r)

/-- wrangle.py lines 124-208, `trimModelList(files, criteria)`.  Builds a
keyMap entry for every file (`none` models the exception raised when any
record fails to build), then visits the cross product of the sorted
model and rip token lists and, for every pair whose cascade leaves at
least one survivor, appends the first survivor (`subFiles[0]`).  The
verbose trace (lines 186-206) only prints and is not modelled. -/
def trimModelList (files : List String) (fmeta : String → Int × Bool × Int)
    (criteria : List Crit) : Option (List String) :=
  if (pyDedup files).all (fun fn => (buildMeta fmeta fn).isSome) then
    some ((modelsOf files fmeta).flatMap (fun m =>
      (ripsOf files fmeta).filterMap (fun r =>
        (survivorsOf files fmeta criteria m r).head?)))
  else none

/-- A keyword-argument value of `getXmlFiles`: the path fields take
strings, `trim` and `verbose` take booleans. -/
inductive KwVal where
  | s (v : String)
  | b (v : Bool)
deriving DecidableEq

/-- The `pathDict` of wrangle.py lines 250-261 (the Python key
'variable' is the field `variableId`; `variable` is a Lean keyword). -/
structure PathDict where
  base : String
  mipEra : String
  activity : String
  experiment : String
  realm : String
  frequency : String
  variableId : String
  model : String
  realization : String
  gridLabel : String
  trim : Bool
  verbose : Bool
deriving DecidableEq

/-- wrangle.py lines 250-261: the default pathDict. -/
def defaultPathDict : PathDict :=
  { base := "/p/user_pub/xclim/", mipEra := "*", activity := "*",
    experiment := "*", realm := "*", frequency := "*", variableId := "*",
    model := "*", realization := "*", gridLabel := "*",
    trim := true, verbose := true }

/-- wrangle.py lines 272-274: overwrite one pathDict entry when the
keyword names a known key (unknown keys are ignored). -/
def applyKw (d : PathDict) (kv : String × KwVal) : PathDict :=
  match kv with
  | ("base", .s v) => { d with base := v }
  | ("mip_era", .s v) => { d with mipEra := v }
  | ("activity", .s v) => { d with activity := v }
  | ("experiment", .s v) => { d with experiment := v }
  | ("realm", .s v) => { d with realm := v }
  | ("frequency", .s v) => { d with frequency := v }
  | ("variable", .s v) => { d with variableId := v }
  | ("model", .s v) => { d with model := v }
  | ("realization", .s v) => { d with realization := v }
  | ("gridLabel", .s v) => { d with gridLabel := v }
  | ("trim", .b v) => { d with trim := v }
  | ("verbose", .b v) => { d with verbose := v }
  | _ => d

/-- wrangle.py lines 277-289: the glob pattern, with every space removed
(`pathString.replace(' ', '')`, which also erases the whitespace the
line-continued format string inserts). -/
def pathStringOf (d : PathDict) : List Char :=
  (d.base ++ "/" ++ d.mipEra ++ "/" ++ d.activity ++ "/" ++ d.experiment ++ "/" ++
    d.realm ++ "/" ++ d.frequency ++ "/" ++ d.variableId ++ "/*." ++ d.model ++
    "." ++ d.realization ++ ".*." ++ d.gridLabel ++ ".*.xml").toList.filter
      (fun c => c ≠ ' ')

/-- Outcome of `getXmlFiles`: `ret = none` models Python returning
`None`; `noCritMsg` records whether the no-criteria diagnostic was
printed. -/
structure XmlFilesResult where
  ret : Option (List String)
  noCritMsg : Bool
deriving DecidableEq

/-- wrangle.py lines 211-301, `getXmlFiles(**kwargs)`.  With no keyword
arguments at all it prints the diagnostic and falls off with a bare
`return` (Python `None`).  Otherwise it merges the kwargs into the
default pathDict, asks the filesystem collaborator `glob` for the files
matching the composed pattern and, when `trim` is set, reduces them with
`trimModelList` (outer `none` models the exception that a failing record
build raises). -/
def getXmlFiles (kwargs : List (String × KwVal)) (glob : List Char → List String)
    (fmeta : String → Int × Bool × Int) : Option XmlFilesResult :=
  if kwargs.length = 0 then
    some { ret := none, noCritMsg := true }
  else
    let d := kwargs.foldl applyKw defaultPathDict
    let files := glob (pathStringOf d)
    if d.trim then
      match trimModelList files fmeta [Crit.cdate, Crit.ver, Crit.tpoints] with
      | some fs => some { ret := some fs, noCritMsg := false }
      | none => none
    else
      some { ret := some files, noCritMsg := false }

/-- Concrete identifier with version 20190101 (13 dot segments; model
token 'M' at position 4, rip token 'r1' at position 5, version token at
position 10). -/
def exF1 : String := "c.b.c.d.M.r1.e.f.g.h.v20190101.0.x"

/-- Concrete identifier with version 20200101, listed before `exF3` but
lexicographically larger. -/
def exF2 : String := "b.b.c.d.M.r1.e.f.g.h.v20200101.0.x"

/-- Concrete identifier with version 20200101, lexicographically the
smallest of the three. -/
def exF3 : String := "a.b.c.d.M.r1.e.f.g.h.v20200101.0.x"

/-- The end-to-end scenario input list: one (model, rip) group, version
weights 20190101, 20200101, 20200101. -/
def exFiles : List String := [exF1, exF2, exF3]

/-- Constant metadata-extraction oracle for the concrete scenario (only
the version criterion is exercised there). -/
def exFmeta : String → Int × Bool × Int := fun _ => (20200101, true, 5)

/-- The last element of a list (with default) is an element, or the
default. -/
lemma getLastD_mem_or {α : Type} : ∀ (l : List α) (d : α),
    l.getLastD d ∈ l ∨ l.getLastD d = d
  | [], d => .inr rfl
  | a :: as, d => by
    rw [List.getLastD_cons]
    rcases getLastD_mem_or as a with h | h
    · exact .inl (List.mem_cons_of_mem _ h)
    · exact .inl (by rw [h]; exact List.mem_cons_self _ _)

/-- The last element of a nonempty list (with default) is an element. -/
lemma getLastD_mem {α : Type} : ∀ (l : List α) (d : α), l ≠ [] → l.getLastD d ∈ l
  | [], _, h => absurd rfl h
  | [a], d, _ => List.mem_cons_self _ _
  | a :: b :: as, d, _ => by
    rw [List.getLastD_cons]
    exact List.mem_cons_of_mem _ (getLastD_mem (b :: as) a (by simp))

/-- The operation `getLastD` commutes with `map` on nonempty lists, for any defaults. -/
lemma getLastD_map {α β : Type} (f : α → β) : ∀ (l : List α) (e : β) (d : α),
    l ≠ [] → (l.map f).getLastD e = f (l.getLastD d)
  | [], _, _, h => absurd rfl h
  | [a], e, d, _ => rfl
  | a :: b :: as, e, d, _ => by
    rw [List.map_cons, List.getLastD_cons, List.getLastD_cons]
    exact getLastD_map f (b :: as) (f a) a (by simp)

/-- A left fold of `max` yields the seed or a list element. -/
lemma foldl_max_mem_or : ∀ (l : List Int) (a : Int),
    l.foldl max a = a ∨ l.foldl max a ∈ l
  | [], a => .inl rfl
  | b :: t, a => by
    rw [List.foldl_cons]
    rcases foldl_max_mem_or t (max a b) with h | h
    · rcases max_choice a b with hm | hm
      · exact .inl (h.trans hm)
      · exact .inr (by rw [h, hm]; exact List.mem_cons_self _ _)
    · exact .inr (List.mem_cons_of_mem _ h)

/-- The maximum of a nonempty integer list is attained. -/
lemma listMax_mem : ∀ (l : List Int), l ≠ [] → listMax l ∈ l
  | [], h => absurd rfl h
  | a :: t, _ => by
    rw [listMax]
    rcases foldl_max_mem_or t a with h | h
    · rw [h]; exact List.mem_cons_self _ _
    · exact List.mem_cons_of_mem _ h

/-- Applying `filterXmls` to the empty list yields the empty list. -/
lemma filterXmls_nil (km : String → Crit → PyVal) (c : Crit) :
    filterXmls [] km c = [] := rfl

/-- The `filterXmls` output is a sublist (order-preserving subset) of its
input. -/
lemma filterXmls_sub (files : List String) (km : String → Crit → PyVal) (c : Crit) :
    (filterXmls files km c).Sublist files := by
  rw [filterXmls]
  split
  · exact List.Sublist.refl _
  · exact List.filter_sublist _

/-- Unfolding of the criteria cascade one step at a time. -/
lemma applyCriteria_cons (km : String → Crit → PyVal) (c : Crit) (cs : List Crit)
    (files : List String) :
    applyCriteria km (c :: cs) files = applyCriteria km cs (filterXmls files km c) := rfl

/-- The criteria cascade starting from the empty list stays empty. -/
lemma applyCriteria_nil_input (km : String → Crit → PyVal) :
    ∀ cs : List Crit, applyCriteria km cs [] = []
  | [] => rfl
  | c :: cs => by
    rw [applyCriteria_cons, filterXmls_nil]
    exact applyCriteria_nil_input km cs

/-- The criteria cascade output is a sublist of its input. -/
lemma applyCriteria_sub (km : String → Crit → PyVal) :
    ∀ (cs : List Crit) (files : List String),
      (applyCriteria km cs files).Sublist files
  | [], files => List.Sublist.refl _
  | c :: cs, files => by
    rw [applyCriteria_cons]
    exact (applyCriteria_sub km cs _).trans (filterXmls_sub files km c)

/-- First-occurrence deduplication produces a duplicate-free list. -/
lemma pyDedup_nodup (l : List String) : (pyDedup l).Nodup := by
  have key : ∀ (l : List String) (acc : List String), acc.Nodup →
      (l.foldl (fun acc x => if x ∈ acc then acc else acc ++ [x]) acc).Nodup := by
    intro l
    induction l with
    | nil => intro acc h; exact h
    | cons x t ih =>
      intro acc h
      rw [List.foldl_cons]
      apply ih
      split
      · exact h
      · rw [List.nodup_append]
        exact ⟨h, List.nodup_singleton x, by
          intro a ha hb
          rw [List.mem_singleton] at hb
          subst hb
          simp_all⟩
  exact key l [] List.nodup_nil

/-- The sorted distinct model tokens form a duplicate-free list. -/
lemma modelsOf_nodup (files : List String) (fmeta : String → Int × Bool × Int) :
    (modelsOf files fmeta).Nodup :=
  (List.perm_insertionSort _ _).nodup_iff.mpr (List.nodup_dedup _)

/-- The sorted distinct rip tokens form a duplicate-free list. -/
lemma ripsOf_nodup (files : List String) (fmeta : String → Int × Bool × Int) :
    (ripsOf files fmeta).Nodup :=
  (List.perm_insertionSort _ _).nodup_iff.mpr (List.nodup_dedup _)

/-- A successfully built keyMap entry carries exactly the parsed group
tokens of its file. -/
lemma buildMeta_groupKey {fmeta : String → Int × Bool × Int} {fn : String}
    {mm : XmlMeta} (h : buildMeta fmeta fn = some mm) :
    groupKey fn = (mm.model, mm.rip) := by
  unfold buildMeta at h
  split at h
  case h_1 model rip verTok h4 h5 h10 =>
    split at h
    case h_1 ver hv =>
      injection h with h
      rw [groupKey, h4, h5, ← h]
      rfl
    case h_2 => exact absurd h (by simp)
  case h_2 => exact absurd h (by simp)

/-- Elements produced by a `filterMap` whose productions are keyed by
duplicate-free inputs have pairwise distinct keys. -/
lemma pairwise_ne_filterMap {α β γ : Type} (K : γ → α × β) (m : α)
    (f : β → Option γ) :
    ∀ rs : List β, rs.Nodup → (∀ r x, f r = some x → K x = (m, r)) →
      (rs.filterMap f).Pairwise (fun a b => K a ≠ K b) := by
  intro rs
  induction rs with
  | nil => intro _ _; simp
  | cons r rs ih =>
    intro hr hK
    rw [List.filterMap_cons]
    cases hfr : f r with
    | none => exact ih hr.of_cons hK
    | some x =>
      rw [List.pairwise_cons]
      constructor
      · intro b hb
        rcases List.mem_filterMap.mp hb with ⟨r', hr', hfr'⟩
        rw [hK r x hfr, hK r' b hfr']
        intro he
        injection he with _ he2
        exact (List.nodup_cons.mp hr).1 (he2 ▸ hr')
      · exact ih hr.of_cons hK

/-- Elements produced over the cross product of two duplicate-free token
lists, each production keyed by its pair, have pairwise distinct keys. -/
lemma pairwise_ne_flatMap {α β γ : Type} (K : γ → α × β) (rs : List β)
    (f : α → β → Option γ) :
    ∀ ms : List α, ms.Nodup → rs.Nodup →
      (∀ m r x, f m r = some x → K x = (m, r)) →
      (ms.flatMap (fun m => rs.filterMap (fun r => f m r))).Pairwise
        (fun a b => K a ≠ K b) := by
  intro ms
  induction ms with
  | nil => intro _ _ _; simp
  | cons m ms ih =>
    intro hm hr hK
    rw [List.flatMap_cons, List.pairwise_append]
    refine ⟨pairwise_ne_filterMap K m _ rs hr (fun r x h => hK m r x h),
      ih hm.of_cons hr hK, ?_⟩
    intro a ha b hb
    rcases List.mem_filterMap.mp ha with ⟨r', hr', hfr'⟩
    rcases List.mem_flatMap.mp hb with ⟨m', hm', hb'⟩
    rcases List.mem_filterMap.mp hb' with ⟨r'', hr'', hfr''⟩
    rw [hK m r' a hfr', hK m' r'' b hfr'']
    intro he
    injection he with he1 _
    exact (List.nodup_cons.mp hm).1 (he1 ▸ hm')

/-- In a duplicate-free list, the head of any sublist occurs no later
than every element of that sublist. -/
lemma head_indexOf_le {x : String} {rest : List String} :
    ∀ {M : List String}, M.Nodup → (x :: rest).Sublist M →
      ∀ y ∈ x :: rest, M.indexOf x ≤ M.indexOf y := by
  intro M
  induction M with
  | nil => intro _ hsub; cases hsub
  | cons a M ih =>
    intro hnd hsub y hy
    cases hsub with
    | cons₂ _ h =>
      rw [List.indexOf_cons_self]
      exact Nat.zero_le _
    | cons _ h =>
      have hxM : x ∈ M := h.subset (List.mem_cons_self _ _)
      have hyM : y ∈ M := h.subset hy
      have haM : a ∉ M := (List.nodup_cons.mp hnd).1
      have hxa : x ≠ a := fun e => haM (e ▸ hxM)
      have hya : y ≠ a := fun e => haM (e ▸ hyM)
      rw [List.indexOf_cons_ne _ (Ne.symm hxa), List.indexOf_cons_ne _ (Ne.symm hya)]
      exact Nat.succ_le_succ (ih (List.nodup_cons.mp hnd).2 h y hy)

/-- C10: for every input list, metadata map and criterion, the output of
`filterXmls` is an order-preserving sublist of its input — every returned
file is a member of the input and the returned files keep their relative
input order. -/
theorem filterXmls_sublist_of_input (files : List String)
    (km : String → Crit → PyVal) (crit : Crit) :
    (filterXmls files km crit).Sublist files :=
  filterXmls_sub files km crit

/-- C4: `filterXmls` returns candidate lists with 0 or 1 members
unchanged (and, being a total function, never fails), and once a cascade
step yields the empty list every subsequent criterion short-circuits to
the empty list. -/
theorem filterXmls_short_circuit (km : String → Crit → PyVal) (crit : Crit)
    (crits : List Crit) (files : List String) (h : files.length ≤ 1) :
    filterXmls files km crit = files ∧ applyCriteria km crits [] = [] :=
  ⟨by rw [filterXmls, if_pos (by omega)], applyCriteria_nil_input km crits⟩

/-- Witness for C4 at a concrete one-element list and criteria list. -/
theorem filterXmls_short_circuit_witness :
    filterXmls ["a"] (fun _ _ => PyVal.vInt 0) Crit.ver = ["a"] ∧
    applyCriteria (fun _ _ => PyVal.vInt 0) [Crit.publish, Crit.ver] [] = [] :=
  filterXmls_short_circuit (fun _ _ => PyVal.vInt 0) Crit.ver
    [Crit.publish, Crit.ver] ["a"] (by decide)

/-- C3: on a candidate list of two or more files none of which has the
publish flag, filtering by the publish criterion returns the empty list,
and a cascade that meets the publish criterion in this state ends empty,
so the group contributes no identifier. -/
theorem filterXmls_publish_all_false_empty (K : String → XmlMeta)
    (files : List String) (rest : List Crit) (h2 : 2 ≤ files.length)
    (hall : ∀ fn ∈ files, (K fn).publish = false) :
    filterXmls files (metaKeyMap K) Crit.publish = [] ∧
    applyCriteria (metaKeyMap K) (Crit.publish :: rest) files = [] := by
  have h1 : filterXmls files (metaKeyMap K) Crit.publish = [] := by
    rw [filterXmls, if_neg (by omega)]
    have hIsInt : ((files.map fun g => metaKeyMap K g Crit.publish).getLastD
        (PyVal.vBool true)).isInt = false := by
      rcases getLastD_mem_or (files.map fun g => metaKeyMap K g Crit.publish)
        (PyVal.vBool true) with hm | he
      · rcases List.mem_map.mp hm with ⟨g, _, hg⟩
        rw [← hg]; rfl
      · rw [he]; rfl
    have hv : vmaxOf (files.map fun g => metaKeyMap K g Crit.publish) =
        PyVal.vBool true := by
      rw [vmaxOf, hIsInt]; rfl
    rw [List.filter_eq_nil_iff]
    intro fn hfn
    rw [hv]
    have hval : metaKeyMap K fn Crit.publish = PyVal.vBool false := by
      show critVal (K fn) Crit.publish = PyVal.vBool false
      rw [show critVal (K fn) Crit.publish = PyVal.vBool (K fn).publish from rfl,
        hall fn hfn]
    rw [hval]
    simp [pyEq]
  refine ⟨h1, ?_⟩
  rw [applyCriteria_cons, h1, applyCriteria_nil_input]

/-- Constant all-unpublished metadata map for the C3 witness. -/
def exKfalse : String → XmlMeta :=
  fun _ => { model := [], rip := [], ver := 0, cdate := 0,
             publish := false, tpoints := 0 }

/-- Witness for C3 at a concrete two-element unpublished list. -/
theorem filterXmls_publish_all_false_empty_witness :
    filterXmls ["a", "b"] (metaKeyMap exKfalse) Crit.publish = [] ∧
    applyCriteria (metaKeyMap exKfalse) (Crit.publish :: [Crit.ver]) ["a", "b"] = [] :=
  filterXmls_publish_all_false_empty exKfalse ["a", "b"] [Crit.ver]
    (by decide) (by decide)

/-- C6: `versionWeight` maps 'latest' to 0, 'v1' to 100000000 and
'20190829' to 20190829; and every non-'latest' label whose parsed integer
value is below 10 is rescaled by 100000000. -/
theorem versionWeight_spec :
    versionWeight "latest".toList = some 0 ∧
    versionWeight "v1".toList = some 100000000 ∧
    versionWeight "20190829".toList = some 20190829 ∧
    ∀ (V : List Char) (n : Int), V ≠ "latest".toList →
      pyInt (V.filter (fun c => c ≠ 'v')) = some n → n < 10 →
      versionWeight V = some (n * 100000000) := by
  refine ⟨by decide, by decide, by decide, ?_⟩
  intro V n hne hp hlt
  rw [versionWeight, if_neg hne, hp, Option.map_some', if_pos hlt]

/-- Witness for C6's universally quantified clause at the label 'v1'. -/
theorem versionWeight_spec_witness :
    versionWeight "v1".toList = some (1 * 100000000) :=
  versionWeight_spec.2.2.2 "v1".toList 1 (by decide) (by decide) (by decide)

/-- C5 (code bug): at a directory without the marker substring,
`getFileMeta` reports publish = true even though 'publish' does not occur
in the directory string — `bool(fh.directory.find('publish'))` is truthy
on the -1 that `find` returns for an absent substring, contradicting the
docstring reading (publish iff the data is in the publish directories). -/
theorem getFileMeta_publish_bug :
    getFileMeta { creation_date := none, directory := "/css/data".toList,
                  timeLen := none } = some (19890306, true, 0) ∧
    occursIn "publish".toList "/css/data".toList = false :=
  ⟨by decide, by decide⟩

/-- C8 (counterexample): with no keyword arguments, `getXmlFiles` prints
the no-criteria diagnostic but returns Python `None`, which is not an
empty list of files. -/
theorem getXmlFiles_no_criteria_counterexample :
    getXmlFiles [] (fun _ => [exF1]) (fun _ => (0, false, 0)) =
      some { ret := none, noCritMsg := true } ∧
    (some { ret := none, noCritMsg := true } : Option XmlFilesResult) ≠
      some { ret := some [], noCritMsg := true } :=
  ⟨rfl, by decide⟩

/-- C8 (amended): with no keyword arguments at all, `getXmlFiles` emits
the caller-visible diagnostic and returns `None` (no file list); the
filesystem enumerator and the metadata extractor are never consulted, so
no corpus scan happens (the result is the same for every `glob` and
`fmeta`). -/
theorem getXmlFiles_no_criteria_returns_none (glob : List Char → List String)
    (fmeta : String → Int × Bool × Int) :
    getXmlFiles [] glob fmeta = some { ret := none, noCritMsg := true } := rfl

/-- C9: for lists of two or more candidates, the selection rule of
`filterXmls` is decided solely by the runtime type of the last
candidate's criterion value: the numeric-maximum rule when it is an int,
the fixed-prefer-true rule otherwise, whatever the other candidates'
value types are. -/
theorem filterXmls_last_value_type_rule (files : List String)
    (km : String → Crit → PyVal) (crit : Crit) (h2 : 2 ≤ files.length) :
    filterXmls files km crit =
      files.filter (fun fn => pyEq (km fn crit)
        (if (km (files.getLastD "") crit).isInt then
          PyVal.vInt (listMax (files.map (fun g => (km g crit).toInt)))
         else PyVal.vBool true)) := by
  have hne : files ≠ [] := by
    intro e; rw [e] at h2; exact absurd h2 (by decide)
  rw [filterXmls, if_neg (by omega)]
  have hv : vmaxOf (files.map (fun g => km g crit)) =
      (if (km (files.getLastD "") crit).isInt then
        PyVal.vInt (listMax (files.map (fun g => (km g crit).toInt)))
       else PyVal.vBool true) := by
    rw [vmaxOf, getLastD_map (fun g => km g crit) files (PyVal.vBool true) "" hne,
      List.map_map]
    rfl
  rw [hv]

/-- Keymap for the C9 witness: the value of file 'b' is the int 7, every
other value is the int 3. -/
def exKm9 : String → Crit → PyVal :=
  fun fn _ => if fn = "b" then PyVal.vInt 7 else PyVal.vInt 3

/-- Witness for C9 at a concrete two-element list. -/
theorem filterXmls_last_value_type_rule_witness :
    filterXmls ["a", "b"] exKm9 Crit.ver =
      List.filter (fun fn => pyEq (exKm9 fn Crit.ver)
        (if (exKm9 (["a", "b"].getLastD "") Crit.ver).isInt then
          PyVal.vInt (listMax (["a", "b"].map (fun g => (exKm9 g Crit.ver).toInt)))
         else PyVal.vBool true)) ["a", "b"] :=
  filterXmls_last_value_type_rule ["a", "b"] exKm9 Crit.ver (by decide)

/-- Filtering is idempotent for a criterion whose values are all ints
(the numeric-maximum branch). -/
lemma filter_idem_num (g : String → Int) (km : String → Crit → PyVal) (crit : Crit)
    (hval : ∀ fn, km fn crit = PyVal.vInt (g fn)) (files : List String) :
    filterXmls (filterXmls files km crit) km crit = filterXmls files km crit := by
  by_cases h : files.length < 2
  · have e : filterXmls files km crit = files := by rw [filterXmls, if_pos h]
    rw [e, e]
  · have hne : files ≠ [] := by
      intro e; subst e; exact h (by decide)
    have hlast : (files.map fun fn => km fn crit).getLastD (PyVal.vBool true)
        = PyVal.vInt (g (files.getLastD "")) := by
      rw [getLastD_map (fun fn => km fn crit) files (PyVal.vBool true) "" hne, hval]
    set M := listMax ((files.map fun fn => km fn crit).map PyVal.toInt) with hM
    have hvmax : vmaxOf (files.map fun fn => km fn crit) = PyVal.vInt M := by
      rw [vmaxOf, hlast]
      simp [PyVal.isInt, hM]
    have hO : filterXmls files km crit =
        files.filter (fun fn => pyEq (km fn crit) (PyVal.vInt M)) := by
      rw [filterXmls, if_neg h, hvmax]
    have hOmem : ∀ x ∈ filterXmls files km crit, g x = M := by
      intro x hx
      rw [hO] at hx
      have hp := (List.mem_filter.mp hx).2
      rw [hval x] at hp
      simpa [pyEq] using hp
    by_cases h2 : (filterXmls files km crit).length < 2
    · conv_lhs => rw [filterXmls]
      rw [if_pos h2]
    · have hOne : filterXmls files km crit ≠ [] := by
        intro e; rw [e] at h2; exact h2 (by decide)
      have hlastO : ((filterXmls files km crit).map fun fn => km fn crit).getLastD
          (PyVal.vBool true)
          = PyVal.vInt (g ((filterXmls files km crit).getLastD "")) := by
        rw [getLastD_map (fun fn => km fn crit) _ (PyVal.vBool true) "" hOne, hval]
      have hcomp : (PyVal.toInt ∘ fun fn => km fn crit) = fun fn => g fn := by
        funext fn
        simp [Function.comp, hval fn, PyVal.toInt]
      have hMO : listMax ((filterXmls files km crit).map fun fn => g fn) = M := by
        have hmem := listMax_mem ((filterXmls files km crit).map fun fn => g fn)
          (by simpa using hOne)
        rcases List.mem_map.mp hmem with ⟨x, hxO, hxg⟩
        rw [← hxg]
        exact hOmem x hxO
      have hvmaxO : vmaxOf ((filterXmls files km crit).map fun fn => km fn crit)
          = PyVal.vInt M := by
        rw [vmaxOf, hlastO, List.map_map, hcomp]
        simp [PyVal.isInt, hMO]
      conv_lhs => rw [filterXmls]
      rw [if_neg h2, hvmaxO, List.filter_eq_self]
      intro x hx
      rw [hval x]
      simp [pyEq, hOmem x hx]

/-- Filtering is idempotent for a criterion whose values are all bools
(the fixed-prefer-true branch). -/
lemma filter_idem_bool (b : String → Bool) (km : String → Crit → PyVal) (crit : Crit)
    (hval : ∀ fn, km fn crit = PyVal.vBool (b fn)) (files : List String) :
    filterXmls (filterXmls files km crit) km crit = filterXmls files km crit := by
  by_cases h : files.length < 2
  · have e : filterXmls files km crit = files := by rw [filterXmls, if_pos h]
    rw [e, e]
  · have hIsInt : ((files.map fun fn => km fn crit).getLastD (PyVal.vBool true)).isInt
        = false := by
      rcases getLastD_mem_or (files.map fun fn => km fn crit) (PyVal.vBool true)
        with hm | he
      · rcases List.mem_map.mp hm with ⟨gx, _, hg⟩
        rw [← hg, hval]; rfl
      · rw [he]; rfl
    have hvmax : vmaxOf (files.map fun fn => km fn crit) = PyVal.vBool true := by
      rw [vmaxOf, hIsInt]; rfl
    have hO : filterXmls files km crit =
        files.filter (fun fn => pyEq (km fn crit) (PyVal.vBool true)) := by
      rw [filterXmls, if_neg h, hvmax]
    have hOmem : ∀ x ∈ filterXmls files km crit, b x = true := by
      intro x hx
      rw [hO] at hx
      have hp := (List.mem_filter.mp hx).2
      rw [hval x] at hp
      simpa [pyEq] using hp
    by_cases h2 : (filterXmls files km crit).length < 2
    · conv_lhs => rw [filterXmls]
      rw [if_pos h2]
    · have hIsIntO : (((filterXmls files km crit).map fun fn => km fn crit).getLastD
          (PyVal.vBool true)).isInt = false := by
        rcases getLastD_mem_or ((filterXmls files km crit).map fun fn => km fn crit)
          (PyVal.vBool true) with hm | he
        · rcases List.mem_map.mp hm with ⟨gx, _, hg⟩
          rw [← hg, hval]; rfl
        · rw [he]; rfl
      have hvmaxO : vmaxOf ((filterXmls files km crit).map fun fn => km fn crit)
          = PyVal.vBool true := by
        rw [vmaxOf, hIsIntO]; rfl
      conv_lhs => rw [filterXmls]
      rw [if_neg h2, hvmaxO, List.filter_eq_self]
      intro x hx
      rw [hval x]
      simp [pyEq, hOmem x hx]

/-- C7: for every candidate list and every metadata map of the program's
data model, `filterXmls` is idempotent under each criterion — filtering
its own output by the same criterion returns that output unchanged. -/
theorem filterXmls_idempotent (K : String → XmlMeta) (crit : Crit)
    (files : List String) :
    filterXmls (filterXmls files (metaKeyMap K) crit) (metaKeyMap K) crit =
      filterXmls files (metaKeyMap K) crit := by
  cases crit with
  | cdate => exact filter_idem_num (fun fn => (K fn).cdate) _ _ (fun fn => rfl) files
  | ver => exact filter_idem_num (fun fn => (K fn).ver) _ _ (fun fn => rfl) files
  | tpoints => exact filter_idem_num (fun fn => (K fn).tpoints) _ _ (fun fn => rfl) files
  | publish => exact filter_idem_bool (fun fn => (K fn).publish) _ _ (fun fn => rfl) files

/-- A successful run of `trimModelList` had every record build succeed,
and its output is the cross-product traversal of group survivors. -/
lemma trimModelList_some {files : List String} {fmeta : String → Int × Bool × Int}
    {criteria : List Crit} {out : List String}
    (h : trimModelList files fmeta criteria = some out) :
    (pyDedup files).all (fun fn => (buildMeta fmeta fn).isSome) = true ∧
    out = (modelsOf files fmeta).flatMap (fun m =>
      (ripsOf files fmeta).filterMap (fun r =>
        (survivorsOf files fmeta criteria m r).head?)) := by
  unfold trimModelList at h
  split at h
  next hall => exact ⟨hall, (Option.some.inj h).symm⟩
  next => exact absurd h (by simp)

/-- The first survivor of the (m, r) group carries exactly the group
tokens (m, r) (when every record built successfully). -/
lemma survivors_head_groupKey {files : List String}
    {fmeta : String → Int × Bool × Int} {criteria : List Crit}
    {m r : List Char} {x : String}
    (hall : (pyDedup files).all (fun fn => (buildMeta fmeta fn).isSome) = true)
    (hx : (survivorsOf files fmeta criteria m r).head? = some x) :
    groupKey x = (m, r) := by
  have hxs : x ∈ survivorsOf files fmeta criteria m r :=
    List.mem_of_mem_head? (Option.mem_def.mpr hx)
  have hxg : x ∈ groupFiles files fmeta m r :=
    (applyCriteria_sub _ criteria _).subset hxs
  obtain ⟨hxkeys, hcond⟩ := List.mem_filter.mp hxg
  rw [Bool.and_eq_true] at hcond
  obtain ⟨hm1, hr1⟩ := hcond
  rw [decide_eq_true_iff] at hm1 hr1
  have hsome : (buildMeta fmeta x).isSome = true := by
    simpa using List.all_eq_true.mp hall x hxkeys
  obtain ⟨mm, hmm⟩ := Option.isSome_iff_exists.mp hsome
  have hkey : keyMapOf fmeta x = mm := by
    rw [keyMapOf, hmm]; rfl
  rw [buildMeta_groupKey hmm, ← hm1, ← hr1, hkey]

/-- C1: whenever `trimModelList` returns an output list, that list holds
at most one identifier per distinct (model, realization) pair — any two
positions of the output carry different group keys. -/
theorem trimModelList_at_most_one_per_pair (files : List String)
    (fmeta : String → Int × Bool × Int) (criteria : List Crit) (out : List String)
    (h : trimModelList files fmeta criteria = some out) :
    out.Pairwise (fun a b => groupKey a ≠ groupKey b) := by
  obtain ⟨hall, hout⟩ := trimModelList_some h
  rw [hout]
  exact pairwise_ne_flatMap groupKey (ripsOf files fmeta)
    (fun m r => (survivorsOf files fmeta criteria m r).head?)
    (modelsOf files fmeta) (modelsOf_nodup files fmeta) (ripsOf_nodup files fmeta)
    (fun m r x hx => survivors_head_groupKey hall hx)

/-- Witness for C1 at the concrete three-file scenario. -/
theorem trimModelList_at_most_one_per_pair_witness :
    ([exF2] : List String).Pairwise (fun a b => groupKey a ≠ groupKey b) :=
  trimModelList_at_most_one_per_pair exFiles exFmeta [Crit.ver] [exF2] (by decide)

/-- C2 (counterexample): in the end-to-end scenario (one group, version
weights 20190101, 20200101, 20200101, criteria = [ver]), the cascade
leaves the two tied 2020 files, of which `exF3` is lexicographically
smaller than `exF2`, yet the reduction returns `exF2` — the survivor is
not the lexicographically smallest surviving identifier. -/
theorem trimModelList_tiebreak_counterexample :
    survivorsOf exFiles exFmeta [Crit.ver] "M".toList "r1".toList = [exF2, exF3] ∧
    lexLe exF3.toList exF2.toList = true ∧ exF3 ≠ exF2 ∧
    trimModelList exFiles exFmeta [Crit.ver] = some [exF2] :=
  ⟨by decide, by decide, by decide, by decide⟩

/-- C2 (amended): for every group whose cascade leaves at least one
survivor, the reduction selects the first surviving identifier in the
stored-record (first-occurrence insertion) order — the survivor appears
in the output, and no other survivor of the group occurs earlier in the
deduplicated input. -/
theorem trimModelList_selects_first_in_insertion_order
    (files : List String) (fmeta : String → Int × Bool × Int) (criteria : List Crit)
    (out : List String) (m r : List Char) (x : String) (rest : List String)
    (hout : trimModelList files fmeta criteria = some out)
    (hs : survivorsOf files fmeta criteria m r = x :: rest) :
    (m ∈ modelsOf files fmeta → r ∈ ripsOf files fmeta → x ∈ out) ∧
    ∀ y ∈ x :: rest, (pyDedup files).indexOf x ≤ (pyDedup files).indexOf y := by
  constructor
  · intro hm hr
    obtain ⟨hall, ho⟩ := trimModelList_some hout
    rw [ho]
    apply List.mem_flatMap.mpr
    refine ⟨m, hm, ?_⟩
    apply List.mem_filterMap.mpr
    refine ⟨r, hr, ?_⟩
    rw [hs]
    rfl
  · have h1 : (survivorsOf files fmeta criteria m r).Sublist
        (groupFiles files fmeta m r) := applyCriteria_sub _ criteria _
    have h2 : (groupFiles files fmeta m r).Sublist (pyDedup files) :=
      List.filter_sublist _
    rw [hs] at h1
    exact head_indexOf_le (pyDedup_nodup files) (h1.trans h2)

/-- Witness for the amended C2 at the concrete three-file scenario: the
selected tied identifier is the one listed first, not the
lexicographically smallest. -/
theorem trimModelList_selects_first_witness :
    exF2 ∈ ([exF2] : List String) ∧
    (pyDedup exFiles).indexOf exF2 ≤ (pyDedup exFiles).indexOf exF3 := by
  have h := trimModelList_selects_first_in_insertion_order exFiles exFmeta
    [Crit.ver] [exF2] "M".toList "r1".toList exF2 [exF3] (by decide) (by decide)
  exact ⟨h.1 (by decide) (by decide), h.2 exF3 (by decide)⟩
